import Mathlib

/-!
# ClientAuthorization REST storage

A shallow embedding of `pkg/oauth/registry/clientauthorization/rest.go`.

* Go values `(x, err)` with the usual "err != nil means failure" reading are
  `Except Err X`; a bare `error` result is `Option Err` (`none` is `nil`).
* The `Registry` the REST storage is built on is an interface: it is a record of
  functions over an arbitrary store type `σ`, threaded explicitly.
* Every call that `rest.go` makes to a collaborator (a `Registry` method or one of
  the two validation functions) is appended to a ghost call log carried in `World`,
  in the manner of a recording test double, so that "is never invoked" is a
  statement about that log.
* `apiserver.MakeAsync(fn)` is a handle holding the work function `fn`; the
  work function is run when the handle is awaited, on whatever world exists then.
-/

namespace Origin

/-! ## Data model -/

/-- Label selector of the serving library (`labels.Selector`): a conjunction of
`key = value` requirements. -/
structure Selector where
  requirements : List (String × String)
deriving DecidableEq, Repr

/-- The selector `labels.Everything()`: the empty conjunction. -/
def Selector.Everything : Selector := ⟨[]⟩

/-- Whether a label set satisfies every requirement of the selector. -/
def Selector.Matches (sel : Selector) (labels : List (String × String)) : Bool :=
  sel.requirements.all (fun r => labels.contains r)

/-- The embedded `kapi.ObjectMeta` of an entity: its name and the bookkeeping
fields. -/
structure ObjectMeta where
  Name : String
  Namespace : String
  CreationTimestamp : Nat
  UID : String
  Labels : List (String × String)
deriving DecidableEq, Repr

/-- The entity `api.ClientAuthorization`; `ObjectMeta` is the embedded struct, so
that Go's `authorization.Name` is `authorization.ObjectMeta.Name`. -/
structure ClientAuthorization where
  ObjectMeta : ObjectMeta
  ClientName : String
  UserName : String
  Scopes : List String
deriving DecidableEq, Repr

/-- Go's promoted field `authorization.Name`. -/
def ClientAuthorization.Name (a : ClientAuthorization) : String := a.ObjectMeta.Name

/-- The values of `kapi.Status.Status`. -/
inductive StatusCode where
  | StatusSuccess
  | StatusFailure
  | StatusWorking
deriving DecidableEq, Repr

set_option linter.dupNamespace false in
/-- The object `kapi.Status`, reduced to its `Status` field. -/
structure Status where
  Status : StatusCode
deriving DecidableEq, Repr

/-- A `runtime.Object`: the kinds this package produces, and `other` for any object
of another kind (on which the type assertion to `*api.ClientAuthorization` fails). -/
inductive Object where
  | clientAuthorization (a : ClientAuthorization)
  | clientAuthorizationList (items : List ClientAuthorization)
  | status (s : Status)
  | other (kind : String)
deriving DecidableEq, Repr

/-- One entry of a validation error list (`errs.ErrorList`). -/
structure FieldError where
  field : String
  reason : String
deriving DecidableEq, Repr

/-- Go `error` values seen by this package. `plain` is `errors.New(msg)`,
`formatted fmt obj` is `fmt.Errorf(fmt, obj)`, `invalid` is
`kerrors.NewInvalid(kind, name, errs)`; the remaining ones are the failures a
Registry may report. -/
inductive Err where
  | plain (msg : String)
  | formatted (format : String) (arg : Object)
  | invalid (kind : String) (name : String) (errs : List FieldError)
  | notFound (kind : String) (name : String)
  | alreadyExists (kind : String) (name : String)
  | storageFault (msg : String)
deriving DecidableEq, Repr

/-- The request context `kapi.Context`, with the values the system metadata of a new
object is taken from. -/
structure Context where
  Namespace : String
  Now : Nat
  NewUID : String
deriving DecidableEq, Repr

/-- Modelled from the spec: `kapi.FillObjectMetaSystemFields`, which lives in the
serving library and not in this package. It populates the system metadata (creation
timestamp and the system-assigned identifier) from the request context and leaves
every other field, the name included, as it was. -/
def FillObjectMetaSystemFields (ctx : Context) (m : ObjectMeta) : ObjectMeta :=
  { m with CreationTimestamp := ctx.Now, UID := ctx.NewUID }

/-! ## Collaborators -/

/-- The `Registry` interface over a store of type `σ`. Each storage method takes the
store and returns its answer with the store that results. `ClientAuthorizationName`
is the pure identity deriver. -/
structure Registry (σ : Type) where
  ClientAuthorizationName : String → String → String
  GetClientAuthorization : String → σ → Except Err ClientAuthorization × σ
  ListClientAuthorizations : Selector → Selector → σ → Except Err (List ClientAuthorization) × σ
  CreateClientAuthorization : ClientAuthorization → σ → Option Err × σ
  UpdateClientAuthorization : ClientAuthorization → σ → Option Err × σ
  DeleteClientAuthorization : String → σ → Option Err × σ

/-- The two functions of package `validation` that `rest.go` calls. -/
structure Validation where
  ValidateClientAuthorization : ClientAuthorization → List FieldError
  ValidateClientAuthorizationUpdate : ClientAuthorization → ClientAuthorization → List FieldError

/-- A recorded call to a collaborator, with its arguments. -/
inductive Call where
  | ClientAuthorizationName (userName : String) (clientName : String)
  | GetClientAuthorization (id : String)
  | ListClientAuthorizations (label : Selector) (field : Selector)
  | CreateClientAuthorization (a : ClientAuthorization)
  | UpdateClientAuthorization (a : ClientAuthorization)
  | DeleteClientAuthorization (id : String)
  | ValidateClientAuthorization (a : ClientAuthorization)
  | ValidateClientAuthorizationUpdate (a : ClientAuthorization) (old : ClientAuthorization)
deriving DecidableEq, Repr

/-- The Registry's store together with the ghost log of collaborator calls, oldest
call first. -/
structure World (σ : Type) where
  store : σ
  calls : List Call

/-- Append one call to the log. -/
def World.record {σ : Type} (w : World σ) (c : Call) : World σ :=
  { w with calls := w.calls ++ [c] }

/-- Is the call the Registry's update path? -/
def Call.isUpdate : Call → Bool
  | .UpdateClientAuthorization _ => true
  | _ => false

/-- Is the call the relational validation? -/
def Call.isValidateUpdate : Call → Bool
  | .ValidateClientAuthorizationUpdate _ _ => true
  | _ => false

/-! ## Asynchronous completion -/

/-- The Go return pair `(runtime.Object, error)` of a work function. -/
structure WorkResult where
  obj : Option Object
  err : Option Err
deriving DecidableEq, Repr

/-- The pair a Go function returns for `return x, err` read off an `Except`:
`(nil, err)` on failure, `(obj, nil)` on success. -/
def WorkResult.ofExcept : Except Err Object → WorkResult
  | .error e => ⟨none, some e⟩
  | .ok o => ⟨some o, none⟩

/-- The work function handed to `apiserver.MakeAsync`. -/
abbrev WorkFunc (σ : Type) := World σ → WorkResult × World σ

/-- The completion handle (`<-chan apiserver.RESTResult`): it holds the work function
that will produce its single result. -/
structure Handle (σ : Type) where
  work : WorkFunc σ

/-- Modelled from the spec: `apiserver.MakeAsync`, a routine of the serving library.
It returns a handle that delivers exactly one eventual result, that of the work
function. -/
def MakeAsync {σ : Type} (fn : WorkFunc σ) : Handle σ := ⟨fn⟩

/-- Modelled from the spec: the delivery rule of `apiserver.MakeAsync` (serving
library). The single result a handle delivers is the work function's error when it is
not nil, and its object otherwise. -/
def WorkResult.deliver (r : WorkResult) : Except Err (Option Object) :=
  match r.err with
  | some e => .error e
  | none => .ok r.obj

/-- Run the handle's work function on the world `w` and deliver its result. -/
def Handle.await {σ : Type} (h : Handle σ) (w : World σ) : Except Err (Option Object) × World σ :=
  let r := h.work w
  (r.1.deliver, r.2)

/-! ## The REST storage (`rest.go`) -/

/-- The struct `REST`: a REST storage is given by its Registry. -/
structure REST (σ : Type) where
  registry : Registry σ

/-- Constructor `NewREST`. -/
def NewREST {σ : Type} (registry : Registry σ) : REST σ := ⟨registry⟩

/-- `REST.Get`: the Registry's get, its answer passed on. -/
def REST.Get {σ : Type} (s : REST σ) (_ctx : Context) (id : String) (w : World σ) :
    Except Err Object × World σ :=
  let w1 := w.record (.GetClientAuthorization id)
  let r := s.registry.GetClientAuthorization id w1.store
  let w2 : World σ := { w1 with store := r.2 }
  match r.1 with
  | .error err => (.error err, w2)
  | .ok authorization => (.ok (.clientAuthorization authorization), w2)

/-- `REST.List`: the Registry's list for the label selector and
`labels.Everything()`. -/
def REST.List {σ : Type} (s : REST σ) (_ctx : Context) (label _fields : Selector) (w : World σ) :
    Except Err Object × World σ :=
  let w1 := w.record (.ListClientAuthorizations label Selector.Everything)
  let r := s.registry.ListClientAuthorizations label Selector.Everything w1.store
  let w2 : World σ := { w1 with store := r.2 }
  match r.1 with
  | .error err => (.error err, w2)
  | .ok l => (.ok (.clientAuthorizationList l), w2)

/-- The entity `REST.Create` works with after lines 57 and 58: the name is set to the
Registry's derived name and the system metadata is filled in. -/
def REST.prepare {σ : Type} (s : REST σ) (ctx : Context) (authorization : ClientAuthorization) :
    ClientAuthorization :=
  let name := s.registry.ClientAuthorizationName authorization.UserName authorization.ClientName
  let a1 : ClientAuthorization := { authorization with ObjectMeta := { authorization.ObjectMeta with Name := name } }
  { a1 with ObjectMeta := FillObjectMetaSystemFields ctx a1.ObjectMeta }

/-- The work function of `REST.Create` (lines 64 to 69). -/
def REST.createWork {σ : Type} (s : REST σ) (ctx : Context) (authorization : ClientAuthorization) :
    WorkFunc σ := fun w =>
  let w1 := w.record (.CreateClientAuthorization authorization)
  let r := s.registry.CreateClientAuthorization authorization w1.store
  let w2 : World σ := { w1 with store := r.2 }
  match r.1 with
  | some err => (⟨none, some err⟩, w2)
  | none =>
    let g := s.Get ctx authorization.Name w2
    (WorkResult.ofExcept g.1, g.2)

/-- `REST.Create`. The result is Go's `(<-chan RESTResult, error)`. -/
def REST.Create {σ : Type} (s : REST σ) (V : Validation) (ctx : Context) (obj : Object)
    (w : World σ) : Except Err (Handle σ) × World σ :=
  match obj with
  | .clientAuthorization authorization =>
    if authorization.UserName = "" ∨ authorization.ClientName = "" then
      (.error (.plain "invalid authorization"), w)
    else
      let w1 := w.record (.ClientAuthorizationName authorization.UserName authorization.ClientName)
      let authorization := s.prepare ctx authorization
      let w2 := w1.record (.ValidateClientAuthorization authorization)
      let errs := V.ValidateClientAuthorization authorization
      if errs.length > 0 then
        (.error (.invalid "clientAuthorization" authorization.Name errs), w2)
      else
        (.ok (MakeAsync (s.createWork ctx authorization)), w2)
  | _ => (.error (.formatted "not an authorization: %#v" obj), w)

/-- The work function of `REST.Update` (lines 91 to 96). -/
def REST.updateWork {σ : Type} (s : REST σ) (ctx : Context) (authorization : ClientAuthorization) :
    WorkFunc σ := fun w =>
  let w1 := w.record (.UpdateClientAuthorization authorization)
  let r := s.registry.UpdateClientAuthorization authorization w1.store
  let w2 : World σ := { w1 with store := r.2 }
  match r.1 with
  | some err => (⟨none, some err⟩, w2)
  | none =>
    let g := s.Get ctx authorization.Name w2
    (WorkResult.ofExcept g.1, g.2)

/-- `REST.Update`. -/
def REST.Update {σ : Type} (s : REST σ) (V : Validation) (ctx : Context) (obj : Object)
    (w : World σ) : Except Err (Handle σ) × World σ :=
  match obj with
  | .clientAuthorization authorization =>
    let w1 := w.record (.ValidateClientAuthorization authorization)
    let errs := V.ValidateClientAuthorization authorization
    if errs.length > 0 then
      (.error (.invalid "clientAuthorization" authorization.Name errs), w1)
    else
      let w2 := w1.record (.GetClientAuthorization authorization.Name)
      let r := s.registry.GetClientAuthorization authorization.Name w2.store
      let w3 : World σ := { w2 with store := r.2 }
      match r.1 with
      | .error err => (.error err, w3)
      | .ok oldauth =>
        let w4 := w3.record (.ValidateClientAuthorizationUpdate authorization oldauth)
        let errs := V.ValidateClientAuthorizationUpdate authorization oldauth
        if errs.length > 0 then
          (.error (.invalid "clientAuthorization" authorization.Name errs), w4)
        else
          (.ok (MakeAsync (s.updateWork ctx authorization)), w4)
  | _ => (.error (.formatted "not an authorization: %#v" obj), w)

/-- The work function of `REST.Delete` (line 102): it returns the success status
together with whatever error the Registry's delete gives. -/
def REST.deleteWork {σ : Type} (s : REST σ) (id : String) : WorkFunc σ := fun w =>
  let w1 := w.record (.DeleteClientAuthorization id)
  let r := s.registry.DeleteClientAuthorization id w1.store
  let w2 : World σ := { w1 with store := r.2 }
  (⟨some (.status ⟨.StatusSuccess⟩), r.1⟩, w2)

/-- `REST.Delete`. -/
def REST.Delete {σ : Type} (s : REST σ) (_ctx : Context) (id : String) (w : World σ) :
    Except Err (Handle σ) × World σ :=
  (.ok (MakeAsync (s.deleteWork id)), w)

/-! ## A keyed store behind the Registry interface, and a validator -/

/-- The scheme of the identity deriver used in the examples: user name and client
name joined by a colon. -/
def colonName (userName clientName : String) : String :=
  userName ++ ":" ++ clientName

/-- Does the store hold an entity under the key `id`? -/
def hasKey (st : List ClientAuthorization) (id : String) : Bool :=
  st.any (fun e => e.Name == id)

/-- Modelled from the spec: the storage-backed implementation of the Registry
interface, which is not part of this package's `rest.go`. It is a store keyed by
entity name: get answers NotFound when the key is absent, list answers the entities
matching the label selector in store order, create answers AlreadyExists on a
duplicate key, update and delete answer NotFound when the key is absent. The identity
deriver is a parameter. -/
def keyedRegistry (deriveName : String → String → String) : Registry (List ClientAuthorization) where
  ClientAuthorizationName := deriveName
  GetClientAuthorization := fun id st =>
    match st.find? (fun e => e.Name == id) with
    | some e => (.ok e, st)
    | none => (.error (.notFound "clientAuthorization" id), st)
  ListClientAuthorizations := fun label _field st =>
    (.ok (st.filter (fun e => label.Matches e.ObjectMeta.Labels)), st)
  CreateClientAuthorization := fun a st =>
    if hasKey st a.Name then (some (.alreadyExists "clientAuthorization" a.Name), st)
    else (none, st ++ [a])
  UpdateClientAuthorization := fun a st =>
    if hasKey st a.Name then (none, st.map (fun e => if e.Name == a.Name then a else e))
    else (some (.notFound "clientAuthorization" a.Name), st)
  DeleteClientAuthorization := fun id st =>
    if hasKey st id then (none, st.filter (fun e => !(e.Name == id)))
    else (some (.notFound "clientAuthorization" id), st)

/-- Structural check of the validator below: name, client name and user name are
required. -/
def requiredFields (a : ClientAuthorization) : List FieldError :=
  (if a.Name = "" then [⟨"name", "required"⟩] else []) ++
  (if a.ClientName = "" then [⟨"clientname", "required"⟩] else []) ++
  (if a.UserName = "" then [⟨"username", "required"⟩] else [])

/-- Relational check of the validator below: name, client name and user name may not
differ from the stored version. -/
def immutableFields (a old : ClientAuthorization) : List FieldError :=
  (if old.Name ≠ a.Name then [⟨"name", "not mutable"⟩] else []) ++
  (if old.ClientName ≠ a.ClientName then [⟨"clientname", "not mutable"⟩] else []) ++
  (if old.UserName ≠ a.UserName then [⟨"username", "not mutable"⟩] else [])

/-- Modelled from the spec: the two checks of package `validation`, which is not part
of this package's `rest.go`. The structural check requires the identifying fields; the
check of an update runs the structural check on the new version and rejects a change
of name, client name or user name against the prior version. -/
def specValidation : Validation where
  ValidateClientAuthorization := requiredFields
  ValidateClientAuthorizationUpdate := fun a old => requiredFields a ++ immutableFields a old

/-- Structural check of the stricter validator below: at least one scope. -/
def scopeRequired (a : ClientAuthorization) : List FieldError :=
  if a.Scopes.isEmpty then [⟨"scopes", "required"⟩] else []

/-- A stricter validator, used as an example of a structural check that can fail on
an entity with both names present: it also requires at least one scope. -/
def scopedValidation : Validation where
  ValidateClientAuthorization := fun a => requiredFields a ++ scopeRequired a
  ValidateClientAuthorizationUpdate := fun a old =>
    requiredFields a ++ scopeRequired a ++ immutableFields a old

/-- The entities handed to the Registry's create path, read off a call log. -/
def createArgs (calls : List Call) : List ClientAuthorization :=
  calls.filterMap (fun c => match c with
    | .CreateClientAuthorization a => some a
    | _ => none)

/-! ## Sequences of completed operations -/

/-- A mutating operation of the REST storage with its arguments. -/
inductive Op where
  | create (ctx : Context) (obj : Object)
  | update (ctx : Context) (obj : Object)
  | delete (ctx : Context) (id : String)

/-- Completion of an operation: when its synchronous part returned a handle, the
handle is awaited on the world the synchronous part left. -/
def complete {σ : Type} (r : Except Err (Handle σ) × World σ) :
    Except Err (Option Object) × World σ :=
  match r.1 with
  | .error err => (.error err, r.2)
  | .ok h => h.await r.2

/-- The synchronous part of an operation: the call into the REST storage. -/
def dispatch {σ : Type} (s : REST σ) (V : Validation) (op : Op) (w : World σ) :
    Except Err (Handle σ) × World σ :=
  match op with
  | .create ctx obj => s.Create V ctx obj w
  | .update ctx obj => s.Update V ctx obj w
  | .delete ctx id => s.Delete ctx id w

/-- Run one operation to completion. -/
def runOp {σ : Type} (s : REST σ) (V : Validation) (op : Op) (w : World σ) :
    Except Err (Option Object) × World σ :=
  complete (dispatch s V op w)

/-- Run a sequence of operations, each to completion, and give the final world. -/
def runOps {σ : Type} (s : REST σ) (V : Validation) (ops : List Op) (w : World σ) :
    World σ :=
  ops.foldl (fun acc op => (runOp s V op acc).2) w

/-- The identity invariant of a keyed store: every stored entity is named by the
deriver applied to its own user name and client name. -/
def IdentityHolds (deriveName : String → String → String) (st : List ClientAuthorization) :
    Prop :=
  ∀ e ∈ st, e.Name = deriveName e.UserName e.ClientName

instance (deriveName : String → String → String) (st : List ClientAuthorization) :
    Decidable (IdentityHolds deriveName st) := by
  unfold IdentityHolds; infer_instance

/-- The REST storage with operations in flight: the world, and the handles that were
returned and not yet awaited. -/
structure System (σ : Type) where
  world : World σ
  pending : List (Handle σ)

/-- A move of the system: a caller starts an operation (its synchronous part runs and
a returned handle becomes pending), or the pending handle at position `k` completes
(its work function runs on the world of that moment). -/
inductive Step where
  | start (op : Op)
  | finish (k : Nat)

/-- One move of the system. -/
def step {σ : Type} (s : REST σ) (V : Validation) (st : Step) (sys : System σ) : System σ :=
  match st with
  | .start op =>
    match (dispatch s V op sys.world).1 with
    | .error _ => ⟨(dispatch s V op sys.world).2, sys.pending⟩
    | .ok h => ⟨(dispatch s V op sys.world).2, sys.pending ++ [h]⟩
  | .finish k =>
    match sys.pending.get? k with
    | none => sys
    | some h => ⟨(h.await sys.world).2, sys.pending.eraseIdx k⟩

/-- A sequence of moves. -/
def steps {σ : Type} (s : REST σ) (V : Validation) (sts : List Step) (sys : System σ) :
    System σ :=
  sts.foldl (fun acc st => step s V st acc) sys

/-- A handle is safe for the invariant when awaiting it on a world whose store
satisfies the invariant leaves such a store again. -/
def SafeHandle (d : String → String → String) (h : Handle (List ClientAuthorization)) : Prop :=
  ∀ w : World (List ClientAuthorization), IdentityHolds d w.store →
    IdentityHolds d (h.await w).2.store

/-! ### Example data -/

/-- A request context. -/
def ctx0 : Context := ⟨"ns", 7, "uid-1"⟩

/-- Alice's authorization of client `cli-1` for scope `read`, with a name the caller
made up. -/
def aliceAuth : ClientAuthorization :=
  { ObjectMeta := ⟨"made-up", "ns", 0, "", []⟩, ClientName := "cli-1", UserName := "alice",
    Scopes := ["read"] }

/-- Alice's authorization of client `cli-1` with no scope at all. -/
def aliceNoScope : ClientAuthorization :=
  { ObjectMeta := ⟨"made-up", "ns", 0, "", []⟩, ClientName := "cli-1", UserName := "alice",
    Scopes := [] }

/-- An authorization without a user name. -/
def anonAuth : ClientAuthorization :=
  { ObjectMeta := ⟨"x", "ns", 0, "", []⟩, ClientName := "cli-1", UserName := "",
    Scopes := ["read"] }

/-- Alice's authorization as stored: named `alice:cli-1`. -/
def aliceStored : ClientAuthorization :=
  { ObjectMeta := ⟨"alice:cli-1", "ns", 7, "uid-1", []⟩, ClientName := "cli-1",
    UserName := "alice", Scopes := ["read"] }

/-- An update sent under Alice's stored name that names another client. -/
def aliceOtherClient : ClientAuthorization :=
  { ObjectMeta := ⟨"alice:cli-1", "ns", 7, "uid-1", []⟩, ClientName := "cli-2",
    UserName := "alice", Scopes := ["read"] }

/-- The world in which Alice's authorization is stored and nothing has been called. -/
def aliceWorld : World (List ClientAuthorization) := ⟨[aliceStored], []⟩

/-- Alice's authorization under her stored name with the scopes `read` and `write`. -/
def aliceReadWrite : ClientAuthorization :=
  { ObjectMeta := ⟨"alice:cli-1", "ns", 7, "uid-1", []⟩, ClientName := "cli-1",
    UserName := "alice", Scopes := ["read", "write"] }

/-- The REST storage over the keyed store with colon-joined names. -/
def keyedREST : REST (List ClientAuthorization) := NewREST (keyedRegistry colonName)

/-- The empty world: nothing stored, nothing called. -/
def emptyWorld : World (List ClientAuthorization) := ⟨[], []⟩

end Origin

namespace Origin

/-! ## Basic facts -/

theorem prepare_name {σ : Type} (s : REST σ) (ctx : Context) (a : ClientAuthorization) :
    (s.prepare ctx a).Name = s.registry.ClientAuthorizationName a.UserName a.ClientName := rfl

theorem prepare_userName {σ : Type} (s : REST σ) (ctx : Context) (a : ClientAuthorization) :
    (s.prepare ctx a).UserName = a.UserName := rfl

theorem prepare_clientName {σ : Type} (s : REST σ) (ctx : Context) (a : ClientAuthorization) :
    (s.prepare ctx a).ClientName = a.ClientName := rfl

theorem prepare_scopes {σ : Type} (s : REST σ) (ctx : Context) (a : ClientAuthorization) :
    (s.prepare ctx a).Scopes = a.Scopes := rfl

theorem createArgs_append (l₁ l₂ : List Call) :
    createArgs (l₁ ++ l₂) = createArgs l₁ ++ createArgs l₂ := by
  simp [createArgs, List.filterMap_append]

/-- Synchronous part of a Create that passes the checks for the two names: the
deriver and the structural validation are called, and the outcome is decided by the
validation's error list. -/
theorem create_sync {σ : Type} (s : REST σ) (V : Validation) (ctx : Context)
    (a : ClientAuthorization) (w : World σ) (hu : a.UserName ≠ "") (hc : a.ClientName ≠ "") :
    s.Create V ctx (.clientAuthorization a) w =
      (if (V.ValidateClientAuthorization (s.prepare ctx a)).length > 0 then
          .error (.invalid "clientAuthorization" (s.prepare ctx a).Name
            (V.ValidateClientAuthorization (s.prepare ctx a)))
        else .ok (MakeAsync (s.createWork ctx (s.prepare ctx a))),
       ⟨w.store, w.calls ++ [.ClientAuthorizationName a.UserName a.ClientName,
          .ValidateClientAuthorization (s.prepare ctx a)]⟩) := by
  have h : ¬ (a.UserName = "" ∨ a.ClientName = "") := by
    rintro (h | h)
    · exact hu h
    · exact hc h
  simp only [REST.Create, h, if_false, World.record, List.append_assoc, List.singleton_append]
  split <;> rfl

/-- The calls the work function of Create makes, and the store it leaves. -/
theorem createWork_world {σ : Type} (s : REST σ) (ctx : Context) (e : ClientAuthorization)
    (w : World σ) :
    (s.createWork ctx e w).2 =
      match (s.registry.CreateClientAuthorization e w.store).1 with
      | some _ => ⟨(s.registry.CreateClientAuthorization e w.store).2,
          w.calls ++ [.CreateClientAuthorization e]⟩
      | none => (s.Get ctx e.Name ⟨(s.registry.CreateClientAuthorization e w.store).2,
          w.calls ++ [.CreateClientAuthorization e]⟩).2 := by
  simp only [REST.createWork, World.record]
  split <;> rfl

theorem get_calls {σ : Type} (s : REST σ) (ctx : Context) (id : String) (w : World σ) :
    (s.Get ctx id w).2.calls = w.calls ++ [.GetClientAuthorization id] := by
  simp only [REST.Get, World.record]
  split <;> rfl

theorem get_store {σ : Type} (s : REST σ) (ctx : Context) (id : String) (w : World σ) :
    (s.Get ctx id w).2.store = (s.registry.GetClientAuthorization id w.store).2 := by
  simp only [REST.Get, World.record]
  split <;> rfl

/-- A Create with an empty user name or client name returns the plain error and the
world it was given. -/
theorem create_empty_name_sync {σ : Type} (s : REST σ) (V : Validation) (ctx : Context)
    (a : ClientAuthorization) (w : World σ) (h : a.UserName = "" ∨ a.ClientName = "") :
    s.Create V ctx (.clientAuthorization a) w = (.error (.plain "invalid authorization"), w) := by
  simp only [REST.Create, h, if_true]

/-! ## Create -/

/-- C1: for an entity with non-empty user name and client name whose prepared form
passes structural validation, whatever name the caller supplied, Create returns a
handle; its synchronous part hands nothing to the Registry's create path, and
awaiting the handle on any world hands exactly one entity to the create path, whose
name is the Registry's derived name for the entity's user name and client name (and
whose user name, client name and scopes are the caller's). -/
theorem create_hands_derived_name {σ : Type} (s : REST σ) (V : Validation) (ctx : Context)
    (a : ClientAuthorization) (w : World σ)
    (hu : a.UserName ≠ "") (hc : a.ClientName ≠ "")
    (hv : V.ValidateClientAuthorization (s.prepare ctx a) = []) :
    ∃ (h : Handle σ) (e : ClientAuthorization),
      (s.Create V ctx (.clientAuthorization a) w).1 = .ok h ∧
      createArgs (s.Create V ctx (.clientAuthorization a) w).2.calls = createArgs w.calls ∧
      e.Name = s.registry.ClientAuthorizationName a.UserName a.ClientName ∧
      e.UserName = a.UserName ∧ e.ClientName = a.ClientName ∧ e.Scopes = a.Scopes ∧
      ∀ w' : World σ, createArgs (h.await w').2.calls = createArgs w'.calls ++ [e] := by
  refine ⟨MakeAsync (s.createWork ctx (s.prepare ctx a)), s.prepare ctx a, ?_, ?_, rfl, rfl,
    rfl, rfl, ?_⟩
  · rw [create_sync s V ctx a w hu hc, hv]; rfl
  · rw [create_sync s V ctx a w hu hc]
    simp [createArgs_append, createArgs]
  · intro w'
    show createArgs (s.createWork ctx (s.prepare ctx a) w').2.calls = _
    rw [createWork_world]
    split
    · simp [createArgs_append, createArgs]
    · rw [get_calls]
      simp [createArgs_append, createArgs]

/-- Witness for C1: Alice's authorization of `cli-1`, sent with the made-up name
`made-up`, reaches the create path under the name `alice:cli-1`. -/
theorem create_hands_derived_name_witness :
    ∃ (h : Handle (List ClientAuthorization)) (e : ClientAuthorization),
      (keyedREST.Create specValidation ctx0 (.clientAuthorization aliceAuth) emptyWorld).1 = .ok h ∧
      createArgs (keyedREST.Create specValidation ctx0 (.clientAuthorization aliceAuth)
        emptyWorld).2.calls = createArgs emptyWorld.calls ∧
      e.Name = "alice:cli-1" ∧
      e.UserName = "alice" ∧ e.ClientName = "cli-1" ∧ e.Scopes = ["read"] ∧
      ∀ w' : World (List ClientAuthorization),
        createArgs (h.await w').2.calls = createArgs w'.calls ++ [e] :=
  create_hands_derived_name keyedREST specValidation ctx0 aliceAuth emptyWorld
    (by decide) (by decide) (by decide)

/-- C2: for a ClientAuthorization with empty user name or empty client name, Create
fails synchronously with the plain error "invalid authorization" (the spec's
InvalidRequest) and leaves the world as it was: the store is untouched and no call, to
the deriver, to get, to create or to any other collaborator, is recorded. -/
theorem create_empty_name_rejected {σ : Type} (s : REST σ) (V : Validation) (ctx : Context)
    (a : ClientAuthorization) (w : World σ) (h : a.UserName = "" ∨ a.ClientName = "") :
    s.Create V ctx (.clientAuthorization a) w = (.error (.plain "invalid authorization"), w) :=
  create_empty_name_sync s V ctx a w h

/-- Witness for C2: an authorization without a user name, on the empty world. -/
theorem create_empty_name_rejected_witness :
    (anonAuth.UserName = "" ∨ anonAuth.ClientName = "") ∧
    keyedREST.Create specValidation ctx0 (.clientAuthorization anonAuth) emptyWorld =
      (.error (.plain "invalid authorization"), emptyWorld) :=
  ⟨by decide, create_empty_name_rejected keyedREST specValidation ctx0 anonAuth emptyWorld
    (by decide)⟩

/-- C3: for an entity that passes the pre-dispatch checks of Create, Create returns a
handle, and awaiting it on any world calls the Registry's create on the prepared
entity; when that create fails, the handle delivers the Registry's error as it is and
the only call made is the create (no get follows); when it succeeds, the handle
delivers exactly what `REST.Get` gives for the derived name on the store the create
left, and leaves the world that Get leaves. -/
theorem create_async_result {σ : Type} (s : REST σ) (V : Validation) (ctx : Context)
    (a : ClientAuthorization) (w : World σ)
    (hu : a.UserName ≠ "") (hc : a.ClientName ≠ "")
    (hv : V.ValidateClientAuthorization (s.prepare ctx a) = []) :
    ∃ h : Handle σ,
      (s.Create V ctx (.clientAuthorization a) w).1 = .ok h ∧
      ∀ w' : World σ,
        (∀ err, (s.registry.CreateClientAuthorization (s.prepare ctx a) w'.store).1 = some err →
          h.await w' = (.error err,
            ⟨(s.registry.CreateClientAuthorization (s.prepare ctx a) w'.store).2,
              w'.calls ++ [.CreateClientAuthorization (s.prepare ctx a)]⟩)) ∧
        ((s.registry.CreateClientAuthorization (s.prepare ctx a) w'.store).1 = none →
          h.await w' =
            (((s.Get ctx (s.registry.ClientAuthorizationName a.UserName a.ClientName)
                ⟨(s.registry.CreateClientAuthorization (s.prepare ctx a) w'.store).2,
                  w'.calls ++ [.CreateClientAuthorization (s.prepare ctx a)]⟩).1).map some,
             (s.Get ctx (s.registry.ClientAuthorizationName a.UserName a.ClientName)
                ⟨(s.registry.CreateClientAuthorization (s.prepare ctx a) w'.store).2,
                  w'.calls ++ [.CreateClientAuthorization (s.prepare ctx a)]⟩).2)) := by
  refine ⟨MakeAsync (s.createWork ctx (s.prepare ctx a)), ?_, ?_⟩
  · rw [create_sync s V ctx a w hu hc, hv]; rfl
  · intro w'
    constructor
    · intro err herr
      simp only [Handle.await, MakeAsync, REST.createWork, World.record, herr,
        WorkResult.deliver]
    · intro hok
      simp only [Handle.await, MakeAsync, REST.createWork, World.record, hok, prepare_name]
      cases hg : (s.Get ctx (s.registry.ClientAuthorizationName a.UserName a.ClientName)
          ⟨(s.registry.CreateClientAuthorization (s.prepare ctx a) w'.store).2,
            w'.calls ++ [.CreateClientAuthorization (s.prepare ctx a)]⟩).1 <;>
        simp [WorkResult.ofExcept, WorkResult.deliver, Except.map]

/-- C4: for an entity with non-empty user name and client name whose prepared form has
a non-empty list of structural validation errors, Create fails synchronously with
the Invalid error of kind "clientAuthorization" that carries the derived name and
exactly that list; the store is untouched and the only calls made are the deriver
and the structural validation, so nothing reaches the Registry's create path. -/
theorem create_invalid {σ : Type} (s : REST σ) (V : Validation) (ctx : Context)
    (a : ClientAuthorization) (w : World σ)
    (hu : a.UserName ≠ "") (hc : a.ClientName ≠ "")
    (hv : V.ValidateClientAuthorization (s.prepare ctx a) ≠ []) :
    s.Create V ctx (.clientAuthorization a) w =
      (.error (.invalid "clientAuthorization"
          (s.registry.ClientAuthorizationName a.UserName a.ClientName)
          (V.ValidateClientAuthorization (s.prepare ctx a))),
       ⟨w.store, w.calls ++ [.ClientAuthorizationName a.UserName a.ClientName,
          .ValidateClientAuthorization (s.prepare ctx a)]⟩) ∧
    createArgs (s.Create V ctx (.clientAuthorization a) w).2.calls = createArgs w.calls := by
  have hlen : (V.ValidateClientAuthorization (s.prepare ctx a)).length > 0 :=
    List.length_pos.mpr hv
  rw [create_sync s V ctx a w hu hc, if_pos hlen, prepare_name]
  refine ⟨rfl, ?_⟩
  simp [createArgs_append, createArgs]

/-- Witness for C3: on the empty keyed store the create succeeds, and the handle
delivers the entity as read back under `alice:cli-1`. -/
theorem create_async_result_witness :
    ∃ h : Handle (List ClientAuthorization),
      (keyedREST.Create specValidation ctx0 (.clientAuthorization aliceAuth) emptyWorld).1 = .ok h ∧
      h.await emptyWorld =
        (.ok (some (.clientAuthorization (keyedREST.prepare ctx0 aliceAuth))),
         ⟨[keyedREST.prepare ctx0 aliceAuth],
          [.CreateClientAuthorization (keyedREST.prepare ctx0 aliceAuth),
           .GetClientAuthorization "alice:cli-1"]⟩) := by
  obtain ⟨h, h1, h2⟩ := create_async_result keyedREST specValidation ctx0 aliceAuth emptyWorld
    (by decide) (by decide) (by decide)
  refine ⟨h, h1, ?_⟩
  rw [(h2 emptyWorld).2 (by decide)]
  rfl

/-- Witness for C4: an authorization without scopes under the validator that requires
one; the error carries the derived name `alice:cli-1` and the validator's list. -/
theorem create_invalid_witness :
    keyedREST.Create scopedValidation ctx0 (.clientAuthorization aliceNoScope) emptyWorld =
      (.error (.invalid "clientAuthorization" "alice:cli-1" [⟨"scopes", "required"⟩]),
       ⟨[], [.ClientAuthorizationName "alice" "cli-1",
          .ValidateClientAuthorization (keyedREST.prepare ctx0 aliceNoScope)]⟩) ∧
    createArgs (keyedREST.Create scopedValidation ctx0 (.clientAuthorization aliceNoScope)
      emptyWorld).2.calls = createArgs emptyWorld.calls :=
  create_invalid keyedREST scopedValidation ctx0 aliceNoScope emptyWorld
    (by decide) (by decide) (by decide)

/-- The validator `specValidation` rejects every update that changes the user name or
the client name. -/
theorem specValidation_rejects_change (n o : ClientAuthorization)
    (h : n.UserName ≠ o.UserName ∨ n.ClientName ≠ o.ClientName) :
    specValidation.ValidateClientAuthorizationUpdate n o ≠ [] := by
  simp only [specValidation, immutableFields, ne_eq, List.append_eq_nil, not_and]
  intro _ h1 h2
  rcases h with h | h
  · simp [Ne.symm h] at h2
  · simp [Ne.symm h] at h1

/-! ## Update -/

/-- Synchronous part of an Update of a structurally valid entity, up to the answer of
the Registry's get. -/
theorem update_sync {σ : Type} (s : REST σ) (V : Validation) (ctx : Context)
    (a : ClientAuthorization) (w : World σ) (hvalid : V.ValidateClientAuthorization a = []) :
    s.Update V ctx (.clientAuthorization a) w =
      match (s.registry.GetClientAuthorization a.Name w.store).1 with
      | .error err => (.error err, ⟨(s.registry.GetClientAuthorization a.Name w.store).2,
          w.calls ++ [.ValidateClientAuthorization a, .GetClientAuthorization a.Name]⟩)
      | .ok oldauth =>
        (if (V.ValidateClientAuthorizationUpdate a oldauth).length > 0 then
            .error (.invalid "clientAuthorization" a.Name
              (V.ValidateClientAuthorizationUpdate a oldauth))
          else .ok (MakeAsync (s.updateWork ctx a)),
         ⟨(s.registry.GetClientAuthorization a.Name w.store).2,
          w.calls ++ [.ValidateClientAuthorization a, .GetClientAuthorization a.Name,
            .ValidateClientAuthorizationUpdate a oldauth]⟩) := by
  simp only [REST.Update, hvalid, List.length_nil, gt_iff_lt, lt_self_iff_false, if_false,
    World.record, List.append_assoc, List.singleton_append, List.nil_append, List.cons_append]
  split
  · rfl
  · split <;> rfl

/-- C5: let the validator reject every update that changes the user name or the client
name. For a structurally valid entity for whose name the Registry's get answers a
stored prior version, if the entity's user name or client name differs from the
stored one, Update fails synchronously with the Invalid error of kind
"clientAuthorization" carrying the entity's name and the relational validation's
list; the calls made are the structural validation, the get and the relational
validation, and none is recorded for the Registry's update path. -/
theorem update_changed_identity_rejected {σ : Type} (s : REST σ) (V : Validation)
    (ctx : Context) (a old : ClientAuthorization) (w : World σ) (st' : σ)
    (hrel : ∀ n o : ClientAuthorization, n.UserName ≠ o.UserName ∨ n.ClientName ≠ o.ClientName →
      V.ValidateClientAuthorizationUpdate n o ≠ [])
    (hvalid : V.ValidateClientAuthorization a = [])
    (hget : s.registry.GetClientAuthorization a.Name w.store = (.ok old, st'))
    (hchg : a.UserName ≠ old.UserName ∨ a.ClientName ≠ old.ClientName) :
    s.Update V ctx (.clientAuthorization a) w =
      (.error (.invalid "clientAuthorization" a.Name (V.ValidateClientAuthorizationUpdate a old)),
       ⟨st', w.calls ++ [.ValidateClientAuthorization a, .GetClientAuthorization a.Name,
          .ValidateClientAuthorizationUpdate a old]⟩) ∧
    (s.Update V ctx (.clientAuthorization a) w).2.calls.filter Call.isUpdate =
      w.calls.filter Call.isUpdate := by
  have hlen : (V.ValidateClientAuthorizationUpdate a old).length > 0 :=
    List.length_pos.mpr (hrel a old hchg)
  rw [update_sync s V ctx a w hvalid, hget]
  simp only [if_pos hlen, true_and]
  simp [List.filter_append, Call.isUpdate]

/-- Witness for C5: an update under Alice's stored name that names client `cli-2`. -/
theorem update_changed_identity_rejected_witness :
    keyedREST.Update specValidation ctx0 (.clientAuthorization aliceOtherClient) aliceWorld =
      (.error (.invalid "clientAuthorization" "alice:cli-1" [⟨"clientname", "not mutable"⟩]),
       ⟨[aliceStored], [.ValidateClientAuthorization aliceOtherClient,
          .GetClientAuthorization "alice:cli-1",
          .ValidateClientAuthorizationUpdate aliceOtherClient aliceStored]⟩) ∧
    (keyedREST.Update specValidation ctx0 (.clientAuthorization aliceOtherClient)
      aliceWorld).2.calls.filter Call.isUpdate = aliceWorld.calls.filter Call.isUpdate :=
  update_changed_identity_rejected keyedREST specValidation ctx0 aliceOtherClient aliceStored
    aliceWorld [aliceStored] specValidation_rejects_change (by decide) rfl (by decide)

/-- C6: for a structurally valid entity for whose name the Registry's get answers an
error (NotFound when the name is absent), Update fails synchronously with that very
error; the calls made are the structural validation and the get, so neither the
relational validation nor the Registry's update path is called. -/
theorem update_absent_fails {σ : Type} (s : REST σ) (V : Validation) (ctx : Context)
    (a : ClientAuthorization) (w : World σ) (err : Err) (st' : σ)
    (hvalid : V.ValidateClientAuthorization a = [])
    (hget : s.registry.GetClientAuthorization a.Name w.store = (.error err, st')) :
    s.Update V ctx (.clientAuthorization a) w =
      (.error err, ⟨st', w.calls ++ [.ValidateClientAuthorization a,
        .GetClientAuthorization a.Name]⟩) ∧
    (s.Update V ctx (.clientAuthorization a) w).2.calls.filter Call.isValidateUpdate =
      w.calls.filter Call.isValidateUpdate ∧
    (s.Update V ctx (.clientAuthorization a) w).2.calls.filter Call.isUpdate =
      w.calls.filter Call.isUpdate := by
  rw [update_sync s V ctx a w hvalid, hget]
  simp [List.filter_append, Call.isUpdate, Call.isValidateUpdate]

/-- Witness for C6: an update for Alice on the empty keyed store answers the store's
NotFound for `alice:cli-1`. -/
theorem update_absent_fails_witness :
    keyedREST.Update specValidation ctx0 (.clientAuthorization aliceStored) emptyWorld =
      (.error (.notFound "clientAuthorization" "alice:cli-1"),
       ⟨[], [.ValidateClientAuthorization aliceStored,
        .GetClientAuthorization "alice:cli-1"]⟩) ∧
    (keyedREST.Update specValidation ctx0 (.clientAuthorization aliceStored)
      emptyWorld).2.calls.filter Call.isValidateUpdate =
      emptyWorld.calls.filter Call.isValidateUpdate ∧
    (keyedREST.Update specValidation ctx0 (.clientAuthorization aliceStored)
      emptyWorld).2.calls.filter Call.isUpdate = emptyWorld.calls.filter Call.isUpdate :=
  update_absent_fails keyedREST specValidation ctx0 aliceStored emptyWorld
    (.notFound "clientAuthorization" "alice:cli-1") [] (by decide) rfl

/-! ## Delete and List -/

/-- C7: for every id, Delete returns a handle without touching the world (no get, no
call at all, before the dispatch); on any world the handle's work function records
exactly one call, the Registry's delete with that id, leaves the store the delete
left, and returns the success status paired with the delete's error; the handle
delivers the success status when the delete answers no error and the delete's error,
as it is, otherwise. -/
theorem delete_delegates {σ : Type} (s : REST σ) (ctx : Context) (id : String) (w : World σ) :
    ∃ h : Handle σ,
      s.Delete ctx id w = (.ok h, w) ∧
      ∀ w' : World σ,
        (h.await w').2 = ⟨(s.registry.DeleteClientAuthorization id w'.store).2,
          w'.calls ++ [.DeleteClientAuthorization id]⟩ ∧
        (h.work w').1 = ⟨some (.status ⟨.StatusSuccess⟩),
          (s.registry.DeleteClientAuthorization id w'.store).1⟩ ∧
        (h.await w').1 =
          match (s.registry.DeleteClientAuthorization id w'.store).1 with
          | none => .ok (some (.status ⟨.StatusSuccess⟩))
          | some err => .error err := by
  refine ⟨MakeAsync (s.deleteWork id), rfl, fun w' => ⟨rfl, rfl, ?_⟩⟩
  simp only [Handle.await, MakeAsync, REST.deleteWork, World.record, WorkResult.deliver]
  cases (s.registry.DeleteClientAuthorization id w'.store).1 <;> rfl

/-- C8: for every label selector and every two field selectors, List gives the same
result and the same world; the result is the Registry's list answer for the label
selector and the match-everything field selector, entities and their order or the
error unchanged, and that single list call is the only call made. -/
theorem list_ignores_field_selector {σ : Type} (s : REST σ) (ctx : Context)
    (l f1 f2 : Selector) (w : World σ) :
    s.List ctx l f1 w = s.List ctx l f2 w ∧
    (s.List ctx l f1 w).1 =
      (s.registry.ListClientAuthorizations l Selector.Everything w.store).1.map
        Object.clientAuthorizationList ∧
    (s.List ctx l f1 w).2 =
      ⟨(s.registry.ListClientAuthorizations l Selector.Everything w.store).2,
        w.calls ++ [.ListClientAuthorizations l Selector.Everything]⟩ := by
  refine ⟨rfl, ?_, ?_⟩
  · simp only [REST.List, World.record]
    cases (s.registry.ListClientAuthorizations l Selector.Everything w.store).1 <;> rfl
  · simp only [REST.List, World.record]
    split <;> rfl

/-! ## The keyed store -/

theorem keyed_get_store (d : String → String → String) (id : String)
    (st : List ClientAuthorization) :
    ((keyedRegistry d).GetClientAuthorization id st).2 = st := by
  simp only [keyedRegistry]
  split <;> rfl

theorem keyed_get_ok (d : String → String → String) (id : String)
    (st : List ClientAuthorization) (e : ClientAuthorization)
    (h : ((keyedRegistry d).GetClientAuthorization id st).1 = .ok e) :
    e ∈ st ∧ e.Name = id := by
  simp only [keyedRegistry] at h
  split at h
  · rename_i x hx
    have hxe : x = e := by simpa using h
    subst hxe
    exact ⟨List.mem_of_find?_eq_some hx, by simpa using List.find?_some hx⟩
  · simp at h

theorem keyed_create_mem (d : String → String → String) (a : ClientAuthorization)
    (st : List ClientAuthorization) (x : ClientAuthorization)
    (hx : x ∈ ((keyedRegistry d).CreateClientAuthorization a st).2) : x ∈ st ∨ x = a := by
  simp only [keyedRegistry] at hx
  split at hx
  · exact Or.inl hx
  · simpa using hx

theorem keyed_update_mem (d : String → String → String) (a : ClientAuthorization)
    (st : List ClientAuthorization) (x : ClientAuthorization)
    (hx : x ∈ ((keyedRegistry d).UpdateClientAuthorization a st).2) : x ∈ st ∨ x = a := by
  simp only [keyedRegistry] at hx
  split at hx
  · simp only [List.mem_map] at hx
    obtain ⟨y, hy, hxy⟩ := hx
    split at hxy
    · exact Or.inr hxy.symm
    · exact Or.inl (hxy ▸ hy)
  · exact Or.inl hx

theorem keyed_delete_mem (d : String → String → String) (id : String)
    (st : List ClientAuthorization) (x : ClientAuthorization)
    (hx : x ∈ ((keyedRegistry d).DeleteClientAuthorization id st).2) : x ∈ st := by
  simp only [keyedRegistry] at hx
  split at hx
  · exact (List.mem_filter.mp hx).1
  · exact hx

theorem identityHolds_of_mem (d : String → String → String) (st st' : List ClientAuthorization)
    (a : ClientAuthorization) (hst : IdentityHolds d st) (ha : a.Name = d a.UserName a.ClientName)
    (hsub : ∀ x ∈ st', x ∈ st ∨ x = a) : IdentityHolds d st' := by
  intro x hx
  rcases hsub x hx with h | h
  · exact hst x h
  · rw [h]; exact ha

/-! ## The identity invariant -/

/-- The calls the work function of Update makes, and the store it leaves. -/
theorem updateWork_world {σ : Type} (s : REST σ) (ctx : Context) (e : ClientAuthorization)
    (w : World σ) :
    (s.updateWork ctx e w).2 =
      match (s.registry.UpdateClientAuthorization e w.store).1 with
      | some _ => ⟨(s.registry.UpdateClientAuthorization e w.store).2,
          w.calls ++ [.UpdateClientAuthorization e]⟩
      | none => (s.Get ctx e.Name ⟨(s.registry.UpdateClientAuthorization e w.store).2,
          w.calls ++ [.UpdateClientAuthorization e]⟩).2 := by
  simp only [REST.updateWork, World.record]
  split <;> rfl

theorem keyed_createWork_safe (d : String → String → String) (ctx : Context)
    (e : ClientAuthorization) (he : e.Name = d e.UserName e.ClientName) :
    SafeHandle d (MakeAsync ((NewREST (keyedRegistry d)).createWork ctx e)) := by
  intro w hw
  show IdentityHolds d ((NewREST (keyedRegistry d)).createWork ctx e w).2.store
  rw [createWork_world]
  have hsub := keyed_create_mem d e w.store
  split
  · exact identityHolds_of_mem d _ _ e hw he hsub
  · rw [get_store]
    show IdentityHolds d ((keyedRegistry d).GetClientAuthorization _ _).2
    rw [keyed_get_store]
    exact identityHolds_of_mem d _ _ e hw he hsub

theorem keyed_updateWork_safe (d : String → String → String) (ctx : Context)
    (e : ClientAuthorization) (he : e.Name = d e.UserName e.ClientName) :
    SafeHandle d (MakeAsync ((NewREST (keyedRegistry d)).updateWork ctx e)) := by
  intro w hw
  show IdentityHolds d ((NewREST (keyedRegistry d)).updateWork ctx e w).2.store
  rw [updateWork_world]
  have hsub := keyed_update_mem d e w.store
  split
  · exact identityHolds_of_mem d _ _ e hw he hsub
  · rw [get_store]
    show IdentityHolds d ((keyedRegistry d).GetClientAuthorization _ _).2
    rw [keyed_get_store]
    exact identityHolds_of_mem d _ _ e hw he hsub

theorem keyed_deleteWork_safe (d : String → String → String) (id : String) :
    SafeHandle d (MakeAsync ((NewREST (keyedRegistry d)).deleteWork id)) := by
  intro w hw x hx
  exact hw x (keyed_delete_mem d id w.store x hx)

/-- The synchronous part of Create over the keyed store leaves the store alone, and
a handle it returns is safe. -/
theorem keyed_create_sync_safe (d : String → String → String) (V : Validation) (ctx : Context)
    (obj : Object) (w : World (List ClientAuthorization)) :
    ((NewREST (keyedRegistry d)).Create V ctx obj w).2.store = w.store ∧
    ∀ h, ((NewREST (keyedRegistry d)).Create V ctx obj w).1 = .ok h → SafeHandle d h := by
  cases obj with
  | clientAuthorization a =>
    by_cases hn : a.UserName = "" ∨ a.ClientName = ""
    · rw [create_empty_name_sync _ V ctx a w hn]
      exact ⟨rfl, fun h hh => by cases hh⟩
    · have hu : a.UserName ≠ "" := fun h => hn (Or.inl h)
      have hc : a.ClientName ≠ "" := fun h => hn (Or.inr h)
      rw [create_sync _ V ctx a w hu hc]
      refine ⟨rfl, fun h hh => ?_⟩
      dsimp only at hh
      split at hh
      · cases hh
      · cases hh
        exact keyed_createWork_safe d ctx _ rfl
  | clientAuthorizationList l => exact ⟨rfl, fun h hh => by cases hh⟩
  | status st => exact ⟨rfl, fun h hh => by cases hh⟩
  | other k => exact ⟨rfl, fun h hh => by cases hh⟩

/-- When Update returns a handle, the Registry's get answered a prior version, the
relational validation found nothing, and the handle holds the update work function
for the entity. -/
theorem update_ok_inv {σ : Type} (s : REST σ) (V : Validation) (ctx : Context)
    (a : ClientAuthorization) (w : World σ) (h : Handle σ)
    (hh : (s.Update V ctx (.clientAuthorization a) w).1 = .ok h) :
    ∃ old, (s.registry.GetClientAuthorization a.Name w.store).1 = .ok old ∧
      V.ValidateClientAuthorizationUpdate a old = [] ∧ h = MakeAsync (s.updateWork ctx a) := by
  simp only [REST.Update, World.record] at hh
  split at hh
  · cases hh
  · split at hh
    · cases hh
    · rename_i old hold
      split at hh
      · cases hh
      · rename_i hlen
        refine ⟨old, hold, ?_, ?_⟩
        · cases hl : V.ValidateClientAuthorizationUpdate a old with
          | nil => rfl
          | cons x xs => exact absurd (by simp [hl]) hlen
        · cases hh; rfl

/-- The store the synchronous part of Update leaves is the given one or the one the
Registry's get left. -/
theorem update_store {σ : Type} (s : REST σ) (V : Validation) (ctx : Context)
    (a : ClientAuthorization) (w : World σ) :
    (s.Update V ctx (.clientAuthorization a) w).2.store = w.store ∨
    (s.Update V ctx (.clientAuthorization a) w).2.store =
      (s.registry.GetClientAuthorization a.Name w.store).2 := by
  simp only [REST.Update, World.record]
  split
  · exact Or.inl rfl
  · split
    · exact Or.inr rfl
    · split <;> exact Or.inr rfl

/-- The synchronous part of Update over the keyed store leaves the store alone, and,
when the validator rejects every change of user name or client name and the store
satisfies the invariant, a handle it returns is safe. -/
theorem keyed_update_sync_safe (d : String → String → String) (V : Validation) (ctx : Context)
    (obj : Object) (w : World (List ClientAuthorization))
    (hrel : ∀ n o : ClientAuthorization, n.UserName ≠ o.UserName ∨ n.ClientName ≠ o.ClientName →
      V.ValidateClientAuthorizationUpdate n o ≠ [])
    (hw : IdentityHolds d w.store) :
    ((NewREST (keyedRegistry d)).Update V ctx obj w).2.store = w.store ∧
    ∀ h, ((NewREST (keyedRegistry d)).Update V ctx obj w).1 = .ok h → SafeHandle d h := by
  cases obj with
  | clientAuthorization a =>
    constructor
    · rcases update_store (NewREST (keyedRegistry d)) V ctx a w with h | h
      · exact h
      · rw [h]; exact keyed_get_store d a.Name w.store
    · intro h hh
      obtain ⟨old, hold, hnil, rfl⟩ := update_ok_inv _ V ctx a w h hh
      obtain ⟨hmem, hname⟩ := keyed_get_ok d a.Name w.store old hold
      have hsame : a.UserName = old.UserName ∧ a.ClientName = old.ClientName := by
        by_contra hne
        exact hrel a old (by
          by_cases h1 : a.UserName = old.UserName
          · exact Or.inr (fun h2 => hne ⟨h1, h2⟩)
          · exact Or.inl h1) hnil
      apply keyed_updateWork_safe d ctx a
      rw [← hname, hw old hmem, hsame.1, hsame.2]
  | clientAuthorizationList l => exact ⟨rfl, fun h hh => by cases hh⟩
  | status st => exact ⟨rfl, fun h hh => by cases hh⟩
  | other k => exact ⟨rfl, fun h hh => by cases hh⟩

/-- Completing an operation whose synchronous part left the store alone and returned
a safe handle, if any, keeps the invariant. -/
theorem complete_identity (d : String → String → String)
    (w : World (List ClientAuthorization))
    (r : Except Err (Handle (List ClientAuthorization)) × World (List ClientAuthorization))
    (hw : IdentityHolds d w.store) (hst : r.2.store = w.store)
    (hsafe : ∀ h, r.1 = .ok h → SafeHandle d h) : IdentityHolds d (complete r).2.store := by
  obtain ⟨r1, r2⟩ := r
  cases r1 with
  | error err =>
    show IdentityHolds d r2.store
    rw [show r2.store = w.store from hst]; exact hw
  | ok h =>
    show IdentityHolds d (h.await r2).2.store
    exact hsafe h rfl r2 (by rw [show r2.store = w.store from hst]; exact hw)

/-- The synchronous part of any operation over the keyed store leaves the store
alone and returns, if anything, a safe handle. -/
theorem keyed_dispatch_safe (d : String → String → String) (V : Validation)
    (hrel : ∀ n o : ClientAuthorization, n.UserName ≠ o.UserName ∨ n.ClientName ≠ o.ClientName →
      V.ValidateClientAuthorizationUpdate n o ≠ [])
    (op : Op) (w : World (List ClientAuthorization)) (hw : IdentityHolds d w.store) :
    (dispatch (NewREST (keyedRegistry d)) V op w).2.store = w.store ∧
    ∀ h, (dispatch (NewREST (keyedRegistry d)) V op w).1 = .ok h → SafeHandle d h := by
  cases op with
  | create ctx obj => exact keyed_create_sync_safe d V ctx obj w
  | update ctx obj => exact keyed_update_sync_safe d V ctx obj w hrel hw
  | delete ctx id =>
    refine ⟨rfl, fun h hh => ?_⟩
    cases hh
    exact keyed_deleteWork_safe d id

/-- One completed operation over the keyed store keeps the invariant. -/
theorem runOp_identity (d : String → String → String) (V : Validation)
    (hrel : ∀ n o : ClientAuthorization, n.UserName ≠ o.UserName ∨ n.ClientName ≠ o.ClientName →
      V.ValidateClientAuthorizationUpdate n o ≠ [])
    (op : Op) (w : World (List ClientAuthorization)) (hw : IdentityHolds d w.store) :
    IdentityHolds d (runOp (NewREST (keyedRegistry d)) V op w).2.store :=
  complete_identity d w _ hw (keyed_dispatch_safe d V hrel op w hw).1
    (keyed_dispatch_safe d V hrel op w hw).2

/-- One move of the system keeps the invariant of the store and the safety of the
pending handles. -/
theorem step_identity (d : String → String → String) (V : Validation)
    (hrel : ∀ n o : ClientAuthorization, n.UserName ≠ o.UserName ∨ n.ClientName ≠ o.ClientName →
      V.ValidateClientAuthorizationUpdate n o ≠ [])
    (st : Step) (sys : System (List ClientAuthorization))
    (hw : IdentityHolds d sys.world.store) (hp : ∀ h ∈ sys.pending, SafeHandle d h) :
    IdentityHolds d (step (NewREST (keyedRegistry d)) V st sys).world.store ∧
    ∀ h ∈ (step (NewREST (keyedRegistry d)) V st sys).pending, SafeHandle d h := by
  cases st with
  | start op =>
    obtain ⟨hst, hsafe⟩ := keyed_dispatch_safe d V hrel op sys.world hw
    simp only [step]
    split
    · exact ⟨by rw [hst]; exact hw, hp⟩
    · rename_i h hh
      refine ⟨by rw [hst]; exact hw, fun h' hh' => ?_⟩
      rcases List.mem_append.mp hh' with hm | hm
      · exact hp h' hm
      · rw [List.mem_singleton.mp hm]; exact hsafe h hh
  | finish k =>
    simp only [step]
    split
    · exact ⟨hw, hp⟩
    · rename_i h hk
      exact ⟨hp h (List.get?_mem hk) sys.world hw,
        fun h' hh' => hp h' (List.mem_of_mem_eraseIdx hh')⟩

theorem steps_identity (d : String → String → String) (V : Validation)
    (hrel : ∀ n o : ClientAuthorization, n.UserName ≠ o.UserName ∨ n.ClientName ≠ o.ClientName →
      V.ValidateClientAuthorizationUpdate n o ≠ [])
    (sts : List Step) (sys : System (List ClientAuthorization))
    (hw : IdentityHolds d sys.world.store) (hp : ∀ h ∈ sys.pending, SafeHandle d h) :
    IdentityHolds d (steps (NewREST (keyedRegistry d)) V sts sys).world.store := by
  induction sts generalizing sys with
  | nil => exact hw
  | cons st rest ih =>
    show IdentityHolds d (steps (NewREST (keyedRegistry d)) V rest
      (step (NewREST (keyedRegistry d)) V st sys)).world.store
    exact ih _ (step_identity d V hrel st sys hw hp).1 (step_identity d V hrel st sys hw hp).2

theorem runOps_identity (d : String → String → String) (V : Validation)
    (hrel : ∀ n o : ClientAuthorization, n.UserName ≠ o.UserName ∨ n.ClientName ≠ o.ClientName →
      V.ValidateClientAuthorizationUpdate n o ≠ [])
    (ops : List Op) (w : World (List ClientAuthorization)) (hw : IdentityHolds d w.store) :
    IdentityHolds d (runOps (NewREST (keyedRegistry d)) V ops w).store := by
  induction ops generalizing w with
  | nil => exact hw
  | cons op rest ih =>
    show IdentityHolds d (runOps (NewREST (keyedRegistry d)) V rest
      (runOp (NewREST (keyedRegistry d)) V op w).2).store
    exact ih _ (runOp_identity d V hrel op w hw)

/-- C9: over the keyed store, with a validator that rejects every update changing the
user name or the client name: after any sequence of completed Create, Update and
Delete operations started on the empty store, every stored entity is named by the
deriver applied to its own user name and client name; any single completed operation
started on a store with that property leaves a store with that property, so no
operation persists an entity that breaks the equality; and the same holds on the
empty store for any sequence of moves in which operations are started and their
handles complete later in any order. -/
theorem identity_invariant (d : String → String → String) (V : Validation)
    (hrel : ∀ n o : ClientAuthorization, n.UserName ≠ o.UserName ∨ n.ClientName ≠ o.ClientName →
      V.ValidateClientAuthorizationUpdate n o ≠ [])
    (ops : List Op) (sts : List Step) :
    (∀ e ∈ (runOps (NewREST (keyedRegistry d)) V ops ⟨[], []⟩).store,
      e.Name = d e.UserName e.ClientName) ∧
    (∀ (op : Op) (w : World (List ClientAuthorization)),
      (∀ e ∈ w.store, e.Name = d e.UserName e.ClientName) →
      ∀ e ∈ (runOp (NewREST (keyedRegistry d)) V op w).2.store,
        e.Name = d e.UserName e.ClientName) ∧
    (∀ e ∈ (steps (NewREST (keyedRegistry d)) V sts ⟨⟨[], []⟩, []⟩).world.store,
      e.Name = d e.UserName e.ClientName) :=
  ⟨runOps_identity d V hrel ops ⟨[], []⟩ (fun _ h => absurd h (List.not_mem_nil _)),
   fun op w hw => runOp_identity d V hrel op w hw,
   steps_identity d V hrel sts ⟨⟨[], []⟩, []⟩ (fun _ h => absurd h (List.not_mem_nil _))
     (fun _ h => absurd h (List.not_mem_nil _))⟩

/-- Witness for C9: create Alice's authorization under a made-up name, then update its
scopes; the store then holds one entity, named `alice:cli-1`. The moves start the
create and the delete of that name, let the delete complete first and the create
after it. -/
theorem identity_invariant_witness :
    (runOps keyedREST specValidation
        [.create ctx0 (.clientAuthorization aliceAuth),
         .update ctx0 (.clientAuthorization aliceReadWrite)] emptyWorld).store = [aliceReadWrite] ∧
    (steps keyedREST specValidation
        [.start (.create ctx0 (.clientAuthorization aliceAuth)),
         .start (.delete ctx0 "alice:cli-1"), .finish 1, .finish 0]
        ⟨emptyWorld, []⟩).world.store = [keyedREST.prepare ctx0 aliceAuth] ∧
    ((∀ e ∈ (runOps (NewREST (keyedRegistry colonName)) specValidation
        [.create ctx0 (.clientAuthorization aliceAuth),
         .update ctx0 (.clientAuthorization aliceReadWrite)] ⟨[], []⟩).store,
      e.Name = colonName e.UserName e.ClientName) ∧
    (∀ (op : Op) (w : World (List ClientAuthorization)),
      (∀ e ∈ w.store, e.Name = colonName e.UserName e.ClientName) →
      ∀ e ∈ (runOp (NewREST (keyedRegistry colonName)) specValidation op w).2.store,
        e.Name = colonName e.UserName e.ClientName) ∧
    (∀ e ∈ (steps (NewREST (keyedRegistry colonName)) specValidation
        [.start (.create ctx0 (.clientAuthorization aliceAuth)),
         .start (.delete ctx0 "alice:cli-1"), .finish 1, .finish 0]
        ⟨⟨[], []⟩, []⟩).world.store,
      e.Name = colonName e.UserName e.ClientName)) :=
  ⟨by decide, by decide,
    identity_invariant colonName specValidation specValidation_rejects_change
    [.create ctx0 (.clientAuthorization aliceAuth),
     .update ctx0 (.clientAuthorization aliceReadWrite)]
    [.start (.create ctx0 (.clientAuthorization aliceAuth)),
     .start (.delete ctx0 "alice:cli-1"), .finish 1, .finish 0]⟩

/-! ## Create followed by Get -/

theorem keyed_find_appended (st : List ClientAuthorization) (e : ClientAuthorization)
    (h : hasKey st e.Name = false) :
    (st ++ [e]).find? (fun x => x.Name == e.Name) = some e := by
  have hnone : st.find? (fun x => x.Name == e.Name) = none := by
    rw [List.find?_eq_none]
    intro x hx hp
    have : hasKey st e.Name = true := List.any_eq_true.mpr ⟨x, hx, hp⟩
    rw [h] at this
    cases this
  rw [List.find?_append, hnone]
  simp

/-- Over the keyed store, on a world that does not hold the entity's name, the work
function of Create stores the entity at the end, reads it back, and returns it. -/
theorem keyed_createWork_fresh (d : String → String → String) (ctx : Context)
    (e : ClientAuthorization) (w : World (List ClientAuthorization))
    (h : hasKey w.store e.Name = false) :
    (NewREST (keyedRegistry d)).createWork ctx e w =
      (⟨some (.clientAuthorization e), none⟩,
       ⟨w.store ++ [e], w.calls ++ [.CreateClientAuthorization e,
          .GetClientAuthorization e.Name]⟩) := by
  simp [REST.createWork, REST.Get, NewREST, keyedRegistry, World.record, h,
    keyed_find_appended w.store e h, WorkResult.ofExcept]

/-- C10: over the keyed store, for an entity with non-empty user name `u` and client
name `c` whose prepared form passes structural validation and whose derived name is
not yet a key of the store, Create completes with an entity as its result, and a Get
on the derived name afterwards returns that entity; its user name is `u`, its client
name is `c`, its scopes are the input scopes and its name is the derived name. -/
theorem create_then_get (d : String → String → String) (V : Validation) (ctx ctx' : Context)
    (a : ClientAuthorization) (w : World (List ClientAuthorization))
    (hu : a.UserName ≠ "") (hc : a.ClientName ≠ "")
    (hv : V.ValidateClientAuthorization ((NewREST (keyedRegistry d)).prepare ctx a) = [])
    (hfresh : hasKey w.store (d a.UserName a.ClientName) = false) :
    ∃ stored : ClientAuthorization,
      (runOp (NewREST (keyedRegistry d)) V (.create ctx (.clientAuthorization a)) w).1 =
        .ok (some (.clientAuthorization stored)) ∧
      ((NewREST (keyedRegistry d)).Get ctx' (d a.UserName a.ClientName)
        (runOp (NewREST (keyedRegistry d)) V (.create ctx (.clientAuthorization a)) w).2).1 =
        .ok (.clientAuthorization stored) ∧
      stored.UserName = a.UserName ∧ stored.ClientName = a.ClientName ∧
      stored.Scopes = a.Scopes ∧ stored.Name = d a.UserName a.ClientName := by
  refine ⟨(NewREST (keyedRegistry d)).prepare ctx a, ?_, ?_, rfl, rfl, rfl, rfl⟩
  · simp only [runOp, dispatch, complete]
    rw [create_sync _ V ctx a w hu hc, hv]
    simp only [List.length_nil, gt_iff_lt, lt_self_iff_false, if_false, Handle.await, MakeAsync]
    rw [keyed_createWork_fresh d ctx _ _ hfresh]
    rfl
  · simp only [runOp, dispatch, complete]
    rw [create_sync _ V ctx a w hu hc, hv]
    simp only [List.length_nil, gt_iff_lt, lt_self_iff_false, if_false, Handle.await, MakeAsync]
    rw [keyed_createWork_fresh d ctx _ _ hfresh]
    have hfind := keyed_find_appended w.store ((NewREST (keyedRegistry d)).prepare ctx a) hfresh
    simp only [REST.Get, NewREST, keyedRegistry, World.record]
    simp only [NewREST, keyedRegistry, prepare_name] at hfind
    rw [hfind]

/-- Witness for C10: user `alice`, client `cli-1`, scopes `read`, on the empty store;
the entity read back has these and the name `alice:cli-1`. -/
theorem create_then_get_witness :
    ∃ stored : ClientAuthorization,
      (runOp keyedREST specValidation (.create ctx0 (.clientAuthorization aliceAuth))
        emptyWorld).1 = .ok (some (.clientAuthorization stored)) ∧
      (keyedREST.Get ctx0 "alice:cli-1"
        (runOp keyedREST specValidation (.create ctx0 (.clientAuthorization aliceAuth))
          emptyWorld).2).1 = .ok (.clientAuthorization stored) ∧
      stored.UserName = "alice" ∧ stored.ClientName = "cli-1" ∧
      stored.Scopes = ["read"] ∧ stored.Name = "alice:cli-1" :=
  create_then_get colonName specValidation ctx0 ctx0 aliceAuth emptyWorld
    (by decide) (by decide) (by decide) (by decide)

end Origin
